import Mathlib

/-!
Verification of the machine-state core of a RISC-V simulator
(`src/emu/riscv-processor.h`).

The source defines union-based register cells whose members alias one block
of storage, with the position of each narrow member chosen by host byte
order (`#if _BYTE_ORDER == _LITTLE_ENDIAN`).  We embed each cell as a list
of bytes (index 0 = byte offset 0 of the cell) and each union member as a
(byte offset, byte width) window read or written with the host's byte
order.  Floating-point members are modelled by their IEEE-754 bit patterns;
the core stores and aliases bits only, it performs no floating-point
arithmetic.
-/

namespace RiscvMC

/-- Host byte order, the `_BYTE_ORDER` compile-time condition of the header. -/
inductive Endian where
  | le
  | be
deriving DecidableEq

/-- The `k` bytes of `v`, least-significant first. -/
def bytesOfNat : Nat → Nat → List Nat
  | 0, _ => []
  | k + 1, v => v % 256 :: bytesOfNat k (v / 256)

/-- Combine bytes, least-significant first. -/
def natOfBytes : List Nat → Nat
  | [] => 0
  | b :: bs => b % 256 + 256 * natOfBytes bs

/-- Memory image of a `k`-byte integer `v` in host byte order. -/
def serializeBytes : Endian → Nat → Nat → List Nat
  | .le, k, v => bytesOfNat k v
  | .be, k, v => (bytesOfNat k v).reverse

/-- Integer value of a memory image in host byte order. -/
def deserializeBytes : Endian → List Nat → Nat
  | .le, bs => natOfBytes bs
  | .be, bs => natOfBytes bs.reverse

/-- Read a union member: `width` bytes at byte offset `off` of the cell. -/
def readView (e : Endian) (mem : List Nat) (off width : Nat) : Nat :=
  deserializeBytes e ((mem.drop off).take width)

/-- Write a union member: store `v` as `width` bytes at byte offset `off`. -/
def writeView (e : Endian) (mem : List Nat) (off width : Nat) (v : Nat) : List Nat :=
  mem.take off ++ serializeBytes e width v ++ mem.drop (off + width)

/-- Two's-complement reading of a `w`-bit pattern. -/
def toSigned (w : Nat) (v : Nat) : Int :=
  if v < 2 ^ (w - 1) then (v : Int) else (v : Int) - 2 ^ w

/-- The `w`-bit pattern of a signed value (conversion to a `w`-bit register). -/
def natOfInt (w : Nat) (v : Int) : Nat :=
  (v % ((2 ^ w : Nat) : Int)).toNat

/-- Byte offset of a `width`-byte member that aliases the low-order bits of
an `n`-byte cell: placed first (padding after) on little-endian, last
(padding before) on big-endian, as in the header's `#if` blocks. -/
def lowOff : Endian → Nat → Nat → Nat
  | .le, _, _ => 0
  | .be, n, width => n - width

theorem bytesOfNat_length (k v : Nat) : (bytesOfNat k v).length = k := by
  induction k generalizing v with
  | zero => rfl
  | succ k ih => simp [bytesOfNat, ih]

theorem natOfBytes_bytesOfNat (k v : Nat) :
    natOfBytes (bytesOfNat k v) = v % 256 ^ k := by
  induction k generalizing v with
  | zero => simp [bytesOfNat, natOfBytes, Nat.mod_one]
  | succ k ih =>
    have h256 : (256 : Nat) ^ (k + 1) = 256 * 256 ^ k := by ring
    rw [bytesOfNat, natOfBytes, ih, h256, Nat.mod_mul]
    omega

theorem bytesOfNat_take (k n v : Nat) (h : k ≤ n) :
    (bytesOfNat n v).take k = bytesOfNat k v := by
  induction k generalizing n v with
  | zero => rfl
  | succ k ih =>
    cases n with
    | zero => omega
    | succ n =>
      rw [bytesOfNat, bytesOfNat, List.take_succ_cons, ih n (v / 256) (by omega)]

theorem natOfBytes_append (l₁ l₂ : List Nat) :
    natOfBytes (l₁ ++ l₂) = natOfBytes l₁ + 256 ^ l₁.length * natOfBytes l₂ := by
  induction l₁ with
  | nil => simp [natOfBytes]
  | cons b bs ih =>
    rw [List.cons_append, natOfBytes, natOfBytes, ih, List.length_cons]
    ring

/-- Key layout lemma: write a full `n`-byte value, then read the `k`-byte
member placed at the low-order position for the host byte order; the read
returns the low `k` bytes of the value, whatever bytes follow the cell. -/
theorem read_low_after_write_full (e : Endian) (n k v : Nat) (rest : List Nat)
    (hk : k ≤ n) :
    readView e (serializeBytes e n v ++ rest) (lowOff e n k) k = v % 256 ^ k := by
  cases e with
  | le =>
    have hlen : k ≤ (bytesOfNat n v).length := by rw [bytesOfNat_length]; exact hk
    simp only [readView, serializeBytes, deserializeBytes, lowOff, List.drop_zero]
    rw [List.take_append_of_le_length hlen, bytesOfNat_take k n v hk,
      natOfBytes_bytesOfNat]
  | be =>
    have hlen : (bytesOfNat n v).reverse.length = n := by
      rw [List.length_reverse, bytesOfNat_length]
    simp only [readView, serializeBytes, deserializeBytes, lowOff]
    rw [List.drop_append_of_le_length (by omega), List.drop_reverse]
    have hdk : (bytesOfNat n v).length - (n - k) = k := by
      rw [bytesOfNat_length]; omega
    rw [hdk]
    have htk : ((bytesOfNat n v).take k).reverse.length = k := by
      rw [List.length_reverse, List.length_take, bytesOfNat_length]; omega
    rw [List.take_append_of_le_length (le_of_eq htk.symm), List.take_of_length_le
      (le_of_eq htk), List.reverse_reverse, bytesOfNat_take k n v hk,
      natOfBytes_bytesOfNat]

theorem writeView_zero (e : Endian) (mem : List Nat) (n v : Nat) :
    writeView e mem 0 n v = serializeBytes e n v ++ mem.drop n := by
  simp [writeView]

theorem natOfInt_lt (w : Nat) (v : Int) : natOfInt w v < 2 ^ w := by
  have hpos : (0 : Int) < ((2 ^ w : Nat) : Int) := by positivity
  have hlt := Int.emod_lt_of_pos v hpos
  have h0 := Int.emod_nonneg v (ne_of_gt hpos)
  unfold natOfInt
  omega

theorem natOfInt_mod (w k : Nat) (v : Int) (h : k ≤ w) :
    natOfInt w v % 2 ^ k = natOfInt k v := by
  have hdvd : ((2 ^ k : Nat) : Int) ∣ ((2 ^ w : Nat) : Int) := by
    exact_mod_cast pow_dvd_pow 2 h
  have hpos : (0 : Int) < ((2 ^ w : Nat) : Int) := by positivity
  have h1 : v % ((2 ^ w : Nat) : Int) % ((2 ^ k : Nat) : Int)
      = v % ((2 ^ k : Nat) : Int) := Int.emod_emod_of_dvd v hdvd
  have h0w := Int.emod_nonneg v (ne_of_gt hpos)
  unfold natOfInt
  rw [← h1, ← Int.toNat_of_nonneg h0w, ← Int.natCast_mod, Int.toNat_natCast,
    Int.toNat_natCast]

theorem pow256_eq (k : Nat) : (256 : Nat) ^ k = 2 ^ (8 * k) := by
  rw [show (256 : Nat) = 2 ^ 8 from rfl, ← pow_mul]

/-! ## RV32 integer register (`struct ireg_rv32`)

A 4-byte union.  Members `x`, `xu`, `w`, `wu` cover all 4 bytes; `h`/`hu`
are 2 bytes and `b`/`bu` 1 byte, placed before their padding on
little-endian and after it on big-endian. -/

structure ireg_rv32 where
  r : List Nat

/-- `ireg_rv32()` — `memset(&r, 0, sizeof(r))`. -/
def ireg_rv32.init : ireg_rv32 := ⟨List.replicate 4 0⟩

/-- Byte offset of members `h`/`hu`. -/
def ireg_rv32.hOff (e : Endian) : Nat := lowOff e 4 2

/-- Byte offset of members `b`/`bu`. -/
def ireg_rv32.bOff (e : Endian) : Nat := lowOff e 4 1

/-- `operator=(s32 val)` — stores through the full-width member `x`. -/
def ireg_rv32.assign (e : Endian) (reg : ireg_rv32) (v : Int) : ireg_rv32 :=
  ⟨writeView e reg.r 0 4 (natOfInt 32 v)⟩

/-- Member `r.xu.val` (bit pattern). -/
def ireg_rv32.xu (e : Endian) (reg : ireg_rv32) : Nat := readView e reg.r 0 4

/-- Member `r.x.val`, the signed full-width reading (also `operator s32`). -/
def ireg_rv32.x (e : Endian) (reg : ireg_rv32) : Int := toSigned 32 (reg.xu e)

/-- Member `r.wu.val` (bit pattern). -/
def ireg_rv32.wu (e : Endian) (reg : ireg_rv32) : Nat := readView e reg.r 0 4

/-- Member `r.w.val`. -/
def ireg_rv32.w (e : Endian) (reg : ireg_rv32) : Int := toSigned 32 (reg.wu e)

/-- Member `r.hu.val` (bit pattern). -/
def ireg_rv32.hu (e : Endian) (reg : ireg_rv32) : Nat :=
  readView e reg.r (ireg_rv32.hOff e) 2

/-- Member `r.h.val`. -/
def ireg_rv32.h (e : Endian) (reg : ireg_rv32) : Int := toSigned 16 (reg.hu e)

/-- Member `r.bu.val` (bit pattern). -/
def ireg_rv32.bu (e : Endian) (reg : ireg_rv32) : Nat :=
  readView e reg.r (ireg_rv32.bOff e) 1

/-- Member `r.b.val`. -/
def ireg_rv32.b (e : Endian) (reg : ireg_rv32) : Int := toSigned 8 (reg.bu e)

/-- `operator s32*()` — `reinterpret_cast<s32*>(r.w.val)`: the address held
by the returned pointer is the bit pattern of member `w`. -/
def ireg_rv32.toPtr (e : Endian) (reg : ireg_rv32) : Nat := reg.wu e

/-! ## RV64 integer register (`struct ireg_rv64`) -/

structure ireg_rv64 where
  r : List Nat

/-- `ireg_rv64()` — `memset(&r, 0, sizeof(r))`. -/
def ireg_rv64.init : ireg_rv64 := ⟨List.replicate 8 0⟩

/-- Byte offset of members `w`/`wu`. -/
def ireg_rv64.wOff (e : Endian) : Nat := lowOff e 8 4

/-- Byte offset of members `h`/`hu`. -/
def ireg_rv64.hOff (e : Endian) : Nat := lowOff e 8 2

/-- Byte offset of members `b`/`bu`. -/
def ireg_rv64.bOff (e : Endian) : Nat := lowOff e 8 1

/-- `operator=(s64 val)` — stores through the full-width member `x`. -/
def ireg_rv64.assign (e : Endian) (reg : ireg_rv64) (v : Int) : ireg_rv64 :=
  ⟨writeView e reg.r 0 8 (natOfInt 64 v)⟩

/-- Members `r.xu.val` / `r.lu.val` (bit pattern). -/
def ireg_rv64.xu (e : Endian) (reg : ireg_rv64) : Nat := readView e reg.r 0 8

/-- Member `r.x.val` / `r.l.val` (also `operator s64`). -/
def ireg_rv64.x (e : Endian) (reg : ireg_rv64) : Int := toSigned 64 (reg.xu e)

/-- Member `r.wu.val` (bit pattern). -/
def ireg_rv64.wu (e : Endian) (reg : ireg_rv64) : Nat :=
  readView e reg.r (ireg_rv64.wOff e) 4

/-- Member `r.w.val`. -/
def ireg_rv64.w (e : Endian) (reg : ireg_rv64) : Int := toSigned 32 (reg.wu e)

/-- Member `r.hu.val` (bit pattern). -/
def ireg_rv64.hu (e : Endian) (reg : ireg_rv64) : Nat :=
  readView e reg.r (ireg_rv64.hOff e) 2

/-- Member `r.h.val`. -/
def ireg_rv64.h (e : Endian) (reg : ireg_rv64) : Int := toSigned 16 (reg.hu e)

/-- Member `r.bu.val` (bit pattern). -/
def ireg_rv64.bu (e : Endian) (reg : ireg_rv64) : Nat :=
  readView e reg.r (ireg_rv64.bOff e) 1

/-- Member `r.b.val`. -/
def ireg_rv64.b (e : Endian) (reg : ireg_rv64) : Int := toSigned 8 (reg.bu e)

/-- `operator s32*()` — `reinterpret_cast<s32*>(r.w.val)`: address = bit
pattern of the 32-bit member `w`. -/
def ireg_rv64.toPtr32 (e : Endian) (reg : ireg_rv64) : Nat := reg.wu e

/-- `operator s64*()` — `reinterpret_cast<s64*>(r.l.val)`: address = bit
pattern of the full-width member `l`. -/
def ireg_rv64.toPtr64 (e : Endian) (reg : ireg_rv64) : Nat := reg.xu e

/-! ## FP32 register (`struct freg_fp32`)

All five members (`w`, `wu`, `x`, `xu`, `s`) span the whole 4-byte cell. -/

structure freg_fp32 where
  r : List Nat

/-- `freg_fp32()` — `memset(&r, 0, sizeof(r))`. -/
def freg_fp32.init : freg_fp32 := ⟨List.replicate 4 0⟩

/-- Members `r.xu.val` / `r.wu.val` (bit pattern). -/
def freg_fp32.xu (e : Endian) (reg : freg_fp32) : Nat := readView e reg.r 0 4

/-- Members `r.x.val` / `r.w.val`. -/
def freg_fp32.x (e : Endian) (reg : freg_fp32) : Int := toSigned 32 (reg.xu e)

/-- Member `r.s.val`, as its IEEE-754 single bit pattern. -/
def freg_fp32.sBits (e : Endian) (reg : freg_fp32) : Nat := readView e reg.r 0 4

/-! ## FP64 register (`struct freg_fp64`)

An 8-byte union; `l`, `lu`, `x`, `xu`, `d` span all 8 bytes, while `s`,
`w`, `wu` are 4-byte members padded on the endian-dependent side. -/

structure freg_fp64 where
  r : List Nat

/-- `freg_fp64()` — `memset(&r, 0, sizeof(r))`. -/
def freg_fp64.init : freg_fp64 := ⟨List.replicate 8 0⟩

/-- Byte offset of members `s`, `w`, `wu`. -/
def freg_fp64.sOff (e : Endian) : Nat := lowOff e 8 4

/-- Members `r.xu.val` / `r.lu.val` (bit pattern). -/
def freg_fp64.xu (e : Endian) (reg : freg_fp64) : Nat := readView e reg.r 0 8

/-- Members `r.x.val` / `r.l.val`. -/
def freg_fp64.x (e : Endian) (reg : freg_fp64) : Int := toSigned 64 (reg.xu e)

/-- Member `r.d.val`, as its IEEE-754 double bit pattern. -/
def freg_fp64.dBits (e : Endian) (reg : freg_fp64) : Nat := readView e reg.r 0 8

/-- Member `r.s.val`, as its IEEE-754 single bit pattern. -/
def freg_fp64.sBits (e : Endian) (reg : freg_fp64) : Nat :=
  readView e reg.r (freg_fp64.sOff e) 4

/-- Member `r.wu.val` (bit pattern). -/
def freg_fp64.wu (e : Endian) (reg : freg_fp64) : Nat :=
  readView e reg.r (freg_fp64.sOff e) 4

/-- Store a single-precision bit pattern through member `r.s.val`. -/
def freg_fp64.writeS (e : Endian) (reg : freg_fp64) (bits : Nat) : freg_fp64 :=
  ⟨writeView e reg.r (freg_fp64.sOff e) 4 bits⟩

/-! ## Processor logging flags (`enum { proc_log_inst, ... }`) -/

def proc_log_inst : Nat := 1 <<< 0

def proc_log_operands : Nat := 1 <<< 1

def proc_log_memory : Nat := 1 <<< 2

def proc_log_csr_mmode : Nat := 1 <<< 3

def proc_log_csr_hmode : Nat := 1 <<< 4

def proc_log_csr_smode : Nat := 1 <<< 5

def proc_log_csr_umode : Nat := 1 <<< 6

def proc_log_int_reg : Nat := 1 <<< 7

def proc_log_no_pseudo : Nat := 1 <<< 8

/-- The nine logging-flag constants, in declaration order. -/
def proc_log_flags : List Nat :=
  [proc_log_inst, proc_log_operands, proc_log_memory, proc_log_csr_mmode,
   proc_log_csr_hmode, proc_log_csr_smode, proc_log_csr_umode,
   proc_log_int_reg, proc_log_no_pseudo]

/-! ## Processor state (`template struct processor`)

The template parameters `SX`/`UX` are modelled by their common bit width
`xlen`; `IREG`/`FREG` stay type parameters.  Unsigned fields hold their bit
patterns as `Nat`; the signed fields `lr` and `badaddr` are `Int` values.
The `jmp_buf env` member is an opaque fault-handler context with no reader
in this core and is not modelled.  Stores into fixed-width fields truncate
to the field width, as C++ integral conversion does. -/

structure processor (xlen : Nat) (IREG FREG : Type) (iregCount fregCount : Nat) where
  pc : Nat
  ireg : Fin iregCount → IREG
  freg : Fin fregCount → FREG
  node_id : Nat
  hart_id : Nat
  log : Nat
  lr : Int
  badaddr : Int
  time : Nat
  cycle : Nat
  instret : Nat
  fcsr : Nat

/-- `processor()` — the member-initializer list `pc(0), ireg(), freg(),
node_id(0), hart_id(0), log(0), lr(-1), badaddr(0), time(0), cycle(0),
instret(0), fcsr(0)`; `ireg()`/`freg()` value-initialize every element. -/
def processor.init (xlen : Nat) (IREG FREG : Type) (ic fc : Nat)
    (i0 : IREG) (f0 : FREG) : processor xlen IREG FREG ic fc :=
  ⟨0, fun _ => i0, fun _ => f0, 0, 0, 0, -1, 0, 0, 0, 0, 0⟩

section ProcessorOps

variable {xlen : Nat} {IREG FREG : Type} {ic fc : Nat}

/-- Store to field `pc` (type `UX`). -/
def processor.setPc (p : processor xlen IREG FREG ic fc) (v : Nat) :
    processor xlen IREG FREG ic fc :=
  { p with pc := v % 2 ^ xlen }

/-- Store to element `i` of field `ireg`. -/
def processor.setIreg (p : processor xlen IREG FREG ic fc) (i : Fin ic)
    (reg : IREG) : processor xlen IREG FREG ic fc :=
  { p with ireg := Function.update p.ireg i reg }

/-- Store to element `i` of field `freg`. -/
def processor.setFreg (p : processor xlen IREG FREG ic fc) (i : Fin fc)
    (reg : FREG) : processor xlen IREG FREG ic fc :=
  { p with freg := Function.update p.freg i reg }

/-- Store to field `node_id` (type `u16`). -/
def processor.setNodeId (p : processor xlen IREG FREG ic fc) (v : Nat) :
    processor xlen IREG FREG ic fc :=
  { p with node_id := v % 2 ^ 16 }

/-- Store to field `hart_id` (type `u16`). -/
def processor.setHartId (p : processor xlen IREG FREG ic fc) (v : Nat) :
    processor xlen IREG FREG ic fc :=
  { p with hart_id := v % 2 ^ 16 }

/-- Store to field `time` (type `u64`). -/
def processor.setTime (p : processor xlen IREG FREG ic fc) (v : Nat) :
    processor xlen IREG FREG ic fc :=
  { p with time := v % 2 ^ 64 }

/-- Store to field `cycle` (type `u64`). -/
def processor.setCycle (p : processor xlen IREG FREG ic fc) (v : Nat) :
    processor xlen IREG FREG ic fc :=
  { p with cycle := v % 2 ^ 64 }

/-- Store to field `instret` (type `u64`). -/
def processor.setInstret (p : processor xlen IREG FREG ic fc) (v : Nat) :
    processor xlen IREG FREG ic fc :=
  { p with instret := v % 2 ^ 64 }

end ProcessorOps

/-- `using processor_rv32imafd = processor<s32,u32,ireg_rv32,32,freg_fp64,32>`. -/
abbrev processor_rv32imafd := processor 32 ireg_rv32 freg_fp64 32 32

/-- `using processor_rv64imafd = processor<s64,u64,ireg_rv64,32,freg_fp64,32>`. -/
abbrev processor_rv64imafd := processor 64 ireg_rv64 freg_fp64 32 32

/-- Default-constructed `processor_rv32imafd`. -/
def processor_rv32imafd.init : processor_rv32imafd :=
  processor.init 32 ireg_rv32 freg_fp64 32 32 ireg_rv32.init freg_fp64.init

/-- Default-constructed `processor_rv64imafd`. -/
def processor_rv64imafd.init : processor_rv64imafd :=
  processor.init 64 ireg_rv64 freg_fp64 32 32 ireg_rv64.init freg_fp64.init

/-! ## Configuration parameters

The template arguments of the two `using` instantiations, with the types
`SX`/`UX`/`FREG` represented by their sizes and storage kind; the `enum`
constant `xlen = sizeof(ux) << 3` is recomputed from the parameter. -/

/-- Storage kind of a floating-point register type. -/
inductive fregStorageKind where
  | fp32
  | fp64
deriving DecidableEq

structure procParams where
  sxBytes : Nat
  uxBytes : Nat
  ireg_count : Nat
  fregStorage : fregStorageKind
  freg_count : Nat

/-- `enum { xlen = sizeof(ux) << 3 }`. -/
def procParams.xlen (c : procParams) : Nat := c.uxBytes <<< 3

/-- Template arguments of `processor_rv32imafd`. -/
def params_rv32imafd : procParams := ⟨4, 4, 32, fregStorageKind.fp64, 32⟩

/-- Template arguments of `processor_rv64imafd`. -/
def params_rv64imafd : procParams := ⟨8, 8, 32, fregStorageKind.fp64, 32⟩

/-- Apply a mutation to the first of two hart states. -/
def mutateFirst {xlen : Nat} {IREG FREG : Type} {ic fc : Nat}
    (f : processor xlen IREG FREG ic fc → processor xlen IREG FREG ic fc)
    (s : processor xlen IREG FREG ic fc × processor xlen IREG FREG ic fc) :
    processor xlen IREG FREG ic fc × processor xlen IREG FREG ic fc :=
  (f s.1, s.2)

/-! ## General layout lemmas -/

theorem serializeBytes_length (e : Endian) (k v : Nat) :
    (serializeBytes e k v).length = k := by
  cases e <;> simp [serializeBytes, bytesOfNat_length]

theorem lowOff_full (e : Endian) (n : Nat) : lowOff e n n = 0 := by
  cases e <;> simp [lowOff]

/-- Write a full `n`-byte value into a cell, read back the `k`-byte member
at the low-order position. -/
theorem read_low_writeView (e : Endian) (mem : List Nat) (n k v : Nat)
    (hk : k ≤ n) :
    readView e (writeView e mem 0 n v) (lowOff e n k) k = v % 256 ^ k := by
  rw [writeView_zero]
  exact read_low_after_write_full e n k v (mem.drop n) hk

/-- Version with the value given as the `8*n`-bit pattern of a signed
integer; the member reads the `8*k`-bit pattern. -/
theorem read_low_writeView_int (e : Endian) (mem : List Nat) (n k : Nat)
    (v : Int) (hk : k ≤ n) :
    readView e (writeView e mem 0 n (natOfInt (8 * n) v)) (lowOff e n k) k
      = natOfInt (8 * k) v := by
  rw [read_low_writeView e mem n k _ hk, pow256_eq,
    natOfInt_mod (8 * n) (8 * k) v (by omega)]

/-! ## Claim theorems -/

/-- C3: the derived constants of each provided configuration, recomputed
from its type parameters, equal the declared values: the 32-bit
configuration has `xlen = 32` and 32 + 32 registers, the 64-bit
configuration has `xlen = 64` and 32 + 32 registers, and both use
double-precision floating-point register storage. -/
theorem config_derived_constants :
    params_rv32imafd.xlen = 32 ∧ params_rv32imafd.ireg_count = 32 ∧
    params_rv32imafd.freg_count = 32 ∧
    params_rv64imafd.xlen = 64 ∧ params_rv64imafd.ireg_count = 32 ∧
    params_rv64imafd.freg_count = 32 ∧
    params_rv32imafd.fregStorage = fregStorageKind.fp64 ∧
    params_rv64imafd.fregStorage = fregStorageKind.fp64 := by
  decide

/-- C9: the logging-flags bit-set defines exactly nine diagnostic
categories, each a distinct single bit (pairwise disjoint powers of two),
so each category toggles independently in the stored bit-set. -/
theorem log_flags_nine_disjoint_bits :
    proc_log_flags.length = 9 ∧
    proc_log_inst = 2 ^ 0 ∧ proc_log_operands = 2 ^ 1 ∧
    proc_log_memory = 2 ^ 2 ∧ proc_log_csr_mmode = 2 ^ 3 ∧
    proc_log_csr_hmode = 2 ^ 4 ∧ proc_log_csr_smode = 2 ^ 5 ∧
    proc_log_csr_umode = 2 ^ 6 ∧ proc_log_int_reg = 2 ^ 7 ∧
    proc_log_no_pseudo = 2 ^ 8 ∧
    proc_log_flags.Pairwise (fun a b => a ≠ b ∧ Nat.land a b = 0) := by
  decide

/-- C10: `node_id` and `hart_id` are 16-bit unsigned storage: they start
at zero, every store retains only the value modulo `2 ^ 16`, and every
value read lies below 65536. -/
theorem node_hart_id_u16 :
    ∀ {xlen : Nat} {IREG FREG : Type} {ic fc : Nat}
      (p : processor xlen IREG FREG ic fc) (v : Nat) (i0 : IREG) (f0 : FREG),
      (processor.init xlen IREG FREG ic fc i0 f0).node_id = 0 ∧
      (processor.init xlen IREG FREG ic fc i0 f0).hart_id = 0 ∧
      (p.setNodeId v).node_id = v % 65536 ∧ (p.setNodeId v).node_id < 65536 ∧
      (p.setHartId v).hart_id = v % 65536 ∧ (p.setHartId v).hart_id < 65536 := by
  intro xlen IREG FREG ic fc p v i0 f0
  refine ⟨rfl, rfl, rfl, ?_, rfl, ?_⟩ <;>
    exact Nat.mod_lt _ (by norm_num)

/-- C4: on a little-endian host, a fresh 64-bit configuration instance
whose integer register 5 is assigned −1 reads 255 through that register's
8-bit unsigned member, and a program counter assigned `0x80000000` reads
back `0x80000000`. -/
theorem rv64_scenario :
    (((processor_rv64imafd.init.setIreg 5
        ((processor_rv64imafd.init.ireg 5).assign Endian.le (-1))).ireg 5).bu
        Endian.le = 255) ∧
    ((processor_rv64imafd.init.setIreg 5
        ((processor_rv64imafd.init.ireg 5).assign Endian.le (-1))).setPc
        0x80000000).pc = 0x80000000 := by
  decide

/-- C8: two processor-state instances are independent — applying any of
the mutation operations (program counter, integer register,
floating-point register, time, cycle, instret) to the first of a pair of
hart states leaves the second instance entirely unchanged. -/
theorem hart_instances_independent :
    ∀ {xlen : Nat} {IREG FREG : Type} {ic fc : Nat}
      (s : processor xlen IREG FREG ic fc × processor xlen IREG FREG ic fc)
      (v t c n : Nat) (i : Fin ic) (j : Fin fc) (ri : IREG) (rf : FREG),
      (mutateFirst (fun p => p.setPc v) s).2 = s.2 ∧
      (mutateFirst (fun p => p.setIreg i ri) s).2 = s.2 ∧
      (mutateFirst (fun p => p.setFreg j rf) s).2 = s.2 ∧
      (mutateFirst (fun p => p.setTime t) s).2 = s.2 ∧
      (mutateFirst (fun p => p.setCycle c) s).2 = s.2 ∧
      (mutateFirst (fun p => p.setInstret n) s).2 = s.2 := by
  intros
  exact ⟨rfl, rfl, rfl, rfl, rfl, rfl⟩

/-- C1: for every native value and both integer register variants,
assigning through the full-width member and reading a narrower member
returns the truncation of the value to that width (8/16 bits for the
32-bit variant; 8/16/32 bits for the 64-bit variant), the narrow member
sitting at byte offset 0 on a little-endian host and at the end of the
cell on a big-endian host. -/
theorem assign_full_read_narrow_truncates :
    ∀ (e : Endian) (v : Int) (r32 : ireg_rv32) (r64 : ireg_rv64),
      ((r32.assign e v).bu e = natOfInt 8 v ∧
       (r32.assign e v).hu e = natOfInt 16 v ∧
       (r32.assign e v).b e = toSigned 8 (natOfInt 8 v) ∧
       (r32.assign e v).h e = toSigned 16 (natOfInt 16 v)) ∧
      ((r64.assign e v).bu e = natOfInt 8 v ∧
       (r64.assign e v).hu e = natOfInt 16 v ∧
       (r64.assign e v).wu e = natOfInt 32 v ∧
       (r64.assign e v).b e = toSigned 8 (natOfInt 8 v) ∧
       (r64.assign e v).h e = toSigned 16 (natOfInt 16 v) ∧
       (r64.assign e v).w e = toSigned 32 (natOfInt 32 v)) ∧
      (ireg_rv32.bOff Endian.le = 0 ∧ ireg_rv32.bOff Endian.be = 3 ∧
       ireg_rv32.hOff Endian.le = 0 ∧ ireg_rv32.hOff Endian.be = 2 ∧
       ireg_rv64.bOff Endian.le = 0 ∧ ireg_rv64.bOff Endian.be = 7 ∧
       ireg_rv64.hOff Endian.le = 0 ∧ ireg_rv64.hOff Endian.be = 6 ∧
       ireg_rv64.wOff Endian.le = 0 ∧ ireg_rv64.wOff Endian.be = 4) := by
  intro e v r32 r64
  have hbu32 : (r32.assign e v).bu e = natOfInt 8 v :=
    read_low_writeView_int e r32.r 4 1 v (by norm_num)
  have hhu32 : (r32.assign e v).hu e = natOfInt 16 v :=
    read_low_writeView_int e r32.r 4 2 v (by norm_num)
  have hbu64 : (r64.assign e v).bu e = natOfInt 8 v :=
    read_low_writeView_int e r64.r 8 1 v (by norm_num)
  have hhu64 : (r64.assign e v).hu e = natOfInt 16 v :=
    read_low_writeView_int e r64.r 8 2 v (by norm_num)
  have hwu64 : (r64.assign e v).wu e = natOfInt 32 v :=
    read_low_writeView_int e r64.r 8 4 v (by norm_num)
  refine ⟨⟨hbu32, hhu32, congrArg (toSigned 8) hbu32, congrArg (toSigned 16) hhu32⟩,
    ⟨hbu64, hhu64, hwu64, congrArg (toSigned 8) hbu64,
      congrArg (toSigned 16) hhu64, congrArg (toSigned 32) hwu64⟩, ?_⟩
  exact ⟨rfl, rfl, rfl, rfl, rfl, rfl, rfl, rfl, rfl, rfl⟩

/-- C7: the pointer-reinterpretation conversions expose the register's
stored bits as an address-width quantity: after any assignment, the
32-bit variant's pointer conversion and the 64-bit variant's pointer-sized
(`s64*`) conversion each yield the full stored bit pattern. -/
theorem pointer_reinterpretation_full_bits :
    ∀ (e : Endian) (v : Int) (r32 : ireg_rv32) (r64 : ireg_rv64),
      (r32.assign e v).toPtr e = natOfInt 32 v ∧
      (r64.assign e v).toPtr64 e = natOfInt 64 v ∧
      (r32.assign e v).toPtr e = (r32.assign e v).xu e ∧
      (r64.assign e v).toPtr64 e = (r64.assign e v).xu e := by
  intro e v r32 r64
  have h32 : (r32.assign e v).toPtr e = natOfInt 32 v := by
    show readView e (writeView e r32.r 0 4 (natOfInt 32 v)) 0 4 = natOfInt 32 v
    nth_rewrite 2 [← lowOff_full e 4]
    exact read_low_writeView_int e r32.r 4 4 v (le_refl 4)
  have h64 : (r64.assign e v).toPtr64 e = natOfInt 64 v := by
    show readView e (writeView e r64.r 0 8 (natOfInt 64 v)) 0 8 = natOfInt 64 v
    nth_rewrite 2 [← lowOff_full e 8]
    exact read_low_writeView_int e r64.r 8 8 v (le_refl 8)
  exact ⟨h32, h64, rfl, rfl⟩

/-- C2: default construction of every register cell reads zero through
every member for either byte order, and a default-constructed processor
state has every numeric field zero — program counter, all integer and
floating-point registers, node id, hart id, log flags, fault address,
time, cycle, instret, fcsr — except the load reservation, which holds the
all-bits-one "no reservation" sentinel. -/
theorem default_construction_zero :
    (∀ e : Endian,
      (ireg_rv32.init.xu e = 0 ∧ ireg_rv32.init.x e = 0 ∧
        ireg_rv32.init.wu e = 0 ∧ ireg_rv32.init.w e = 0 ∧
        ireg_rv32.init.hu e = 0 ∧ ireg_rv32.init.h e = 0 ∧
        ireg_rv32.init.bu e = 0 ∧ ireg_rv32.init.b e = 0) ∧
      (ireg_rv64.init.xu e = 0 ∧ ireg_rv64.init.x e = 0 ∧
        ireg_rv64.init.wu e = 0 ∧ ireg_rv64.init.w e = 0 ∧
        ireg_rv64.init.hu e = 0 ∧ ireg_rv64.init.h e = 0 ∧
        ireg_rv64.init.bu e = 0 ∧ ireg_rv64.init.b e = 0) ∧
      (freg_fp32.init.xu e = 0 ∧ freg_fp32.init.x e = 0 ∧
        freg_fp32.init.sBits e = 0) ∧
      (freg_fp64.init.xu e = 0 ∧ freg_fp64.init.x e = 0 ∧
        freg_fp64.init.dBits e = 0 ∧ freg_fp64.init.sBits e = 0 ∧
        freg_fp64.init.wu e = 0)) ∧
    (processor_rv32imafd.init.pc = 0 ∧
      (∀ i, processor_rv32imafd.init.ireg i = ireg_rv32.init) ∧
      (∀ i, processor_rv32imafd.init.freg i = freg_fp64.init) ∧
      processor_rv32imafd.init.node_id = 0 ∧
      processor_rv32imafd.init.hart_id = 0 ∧
      processor_rv32imafd.init.log = 0 ∧
      processor_rv32imafd.init.badaddr = 0 ∧
      processor_rv32imafd.init.time = 0 ∧
      processor_rv32imafd.init.cycle = 0 ∧
      processor_rv32imafd.init.instret = 0 ∧
      processor_rv32imafd.init.fcsr = 0 ∧
      processor_rv32imafd.init.lr = -1 ∧
      natOfInt 32 processor_rv32imafd.init.lr = 2 ^ 32 - 1) ∧
    (processor_rv64imafd.init.pc = 0 ∧
      (∀ i, processor_rv64imafd.init.ireg i = ireg_rv64.init) ∧
      (∀ i, processor_rv64imafd.init.freg i = freg_fp64.init) ∧
      processor_rv64imafd.init.node_id = 0 ∧
      processor_rv64imafd.init.hart_id = 0 ∧
      processor_rv64imafd.init.log = 0 ∧
      processor_rv64imafd.init.badaddr = 0 ∧
      processor_rv64imafd.init.time = 0 ∧
      processor_rv64imafd.init.cycle = 0 ∧
      processor_rv64imafd.init.instret = 0 ∧
      processor_rv64imafd.init.fcsr = 0 ∧
      processor_rv64imafd.init.lr = -1 ∧
      natOfInt 64 processor_rv64imafd.init.lr = 2 ^ 64 - 1) := by
  refine ⟨fun e => by cases e <;> exact ⟨by decide, by decide, by decide, by decide⟩,
    ⟨rfl, fun i => rfl, fun i => rfl, rfl, rfl, rfl, rfl, rfl, rfl, rfl, rfl,
      rfl, by decide⟩,
    ⟨rfl, fun i => rfl, fun i => rfl, rfl, rfl, rfl, rfl, rfl, rfl, rfl, rfl,
      rfl, by decide⟩⟩

/-- C6: storing a single-precision bit pattern through member `s` of the
double-precision register touches only the 4-byte range that member
occupies; the other 4 bytes of the cell (the pad word) read back
unchanged — bytes 4..7 on a little-endian host, bytes 0..3 on a
big-endian host. -/
theorem writeS_preserves_pad (reg : freg_fp64) (bits : Nat)
    (h : reg.r.length = 8) :
    (reg.writeS Endian.le bits).r.drop 4 = reg.r.drop 4 ∧
    (reg.writeS Endian.be bits).r.take 4 = reg.r.take 4 := by
  constructor
  · show (writeView Endian.le reg.r (lowOff Endian.le 8 4) 4 bits).drop 4
      = reg.r.drop 4
    rw [show lowOff Endian.le 8 4 = 0 from rfl, writeView_zero]
    exact List.drop_left' (serializeBytes_length Endian.le 4 bits)
  · show (writeView Endian.be reg.r (lowOff Endian.be 8 4) 4 bits).take 4
      = reg.r.take 4
    rw [show lowOff Endian.be 8 4 = 4 from rfl, writeView, List.append_assoc]
    exact List.take_left' (by rw [List.length_take, h]; norm_num)

/-- C6 witness: the pad word of a fresh register is untouched by a store
of the pattern 7 through member `s`, on either byte order. -/
theorem writeS_preserves_pad_witness :
    freg_fp64.init.r.length = 8 ∧
    ((freg_fp64.init.writeS Endian.le 7).r.drop 4 = freg_fp64.init.r.drop 4 ∧
     (freg_fp64.init.writeS Endian.be 7).r.take 4 = freg_fp64.init.r.take 4) :=
  ⟨by decide, writeS_preserves_pad freg_fp64.init 7 (by decide)⟩

/-- C5 counterexample: on a big-endian host the single-precision member of
a zeroed double-precision register is at bytes 4..7, which are the
low-order bits of the big-endian full-width integer; writing the pattern 1
and reading the full width does not place 1 in the high-order 32 bits. -/
theorem fp64_s_view_be_not_high_bits :
    ¬ ((freg_fp64.init.writeS Endian.be 1).xu Endian.be / 2 ^ 32
        = 1 % 2 ^ 32) := by
  decide

/-- C5 (amended): for every 32-bit pattern and both byte orders, writing
through the single-precision member and reading the full width as an
integer shows the pattern in the low-order 32 bits — at byte offset 0 on a
little-endian host and at bytes 4..7 on a big-endian host, the same
byte-range footprint the 32-bit integer member occupies. -/
theorem fp64_s_view_low_bits (e : Endian) (reg : freg_fp64) (bits : Nat)
    (h : reg.r.length = 8) :
    (reg.writeS e bits).xu e % 2 ^ 32 = bits % 2 ^ 32 ∧
    freg_fp64.sOff e = lowOff e 8 4 := by
  refine ⟨?_, rfl⟩
  cases e with
  | le =>
    show readView Endian.le (writeView Endian.le reg.r 0 4 bits) 0 8 % 2 ^ 32
      = bits % 2 ^ 32
    rw [writeView_zero]
    show natOfBytes (((bytesOfNat 4 bits ++ reg.r.drop 4).drop 0).take 8)
      % 2 ^ 32 = bits % 2 ^ 32
    rw [List.drop_zero]
    have hlen : (bytesOfNat 4 bits ++ reg.r.drop 4).length = 8 := by
      rw [List.length_append, bytesOfNat_length, List.length_drop]; omega
    rw [List.take_of_length_le (le_of_eq hlen), natOfBytes_append,
      natOfBytes_bytesOfNat, bytesOfNat_length,
      show (256 : Nat) ^ 4 = 2 ^ 32 from by norm_num,
      Nat.add_mul_mod_self_left, Nat.mod_mod_of_dvd _ dvd_rfl]
  | be =>
    have hdrop : reg.r.drop (4 + 4) = [] := List.drop_eq_nil_of_le (by omega)
    show deserializeBytes Endian.be
        (((reg.r.take 4 ++ serializeBytes Endian.be 4 bits
          ++ reg.r.drop (4 + 4)).drop 0).take 8) % 2 ^ 32 = bits % 2 ^ 32
    rw [hdrop, List.append_nil, List.drop_zero]
    have hlen : (reg.r.take 4 ++ serializeBytes Endian.be 4 bits).length = 8 := by
      rw [List.length_append, List.length_take, serializeBytes_length, h]
      norm_num
    rw [List.take_of_length_le (le_of_eq hlen)]
    show natOfBytes ((reg.r.take 4 ++ (bytesOfNat 4 bits).reverse).reverse)
      % 2 ^ 32 = bits % 2 ^ 32
    rw [List.reverse_append, List.reverse_reverse, natOfBytes_append,
      natOfBytes_bytesOfNat, bytesOfNat_length,
      show (256 : Nat) ^ 4 = 2 ^ 32 from by norm_num,
      Nat.add_mul_mod_self_left, Nat.mod_mod_of_dvd _ dvd_rfl]

/-- C5 witness: on a big-endian host, the pattern 3 written through the
single-precision member of a fresh register reads back in the low-order
32 bits of the full-width integer view. -/
theorem fp64_s_view_low_bits_witness :
    freg_fp64.init.r.length = 8 ∧
    ((freg_fp64.init.writeS Endian.be 3).xu Endian.be % 2 ^ 32 = 3 % 2 ^ 32 ∧
     freg_fp64.sOff Endian.be = lowOff Endian.be 8 4) :=
  ⟨by decide, fp64_s_view_low_bits Endian.be freg_fp64.init 3 (by decide)⟩

end RiscvMC
